import Mathlib

/-!
Shallow embedding of the internship-watcher pipeline
(02_parse_table.py, 03_watch_once.py, adapters.py, details_cache.py,
watch_core.py) and proofs about it.

Python strings are modelled as lists of characters (`PyStr`).  String
primitives (`strip`, `lower`, `in`, `replace`, `split`, `splitlines`)
are re-implemented with Python's semantics; `str.lower`/`str.isdigit`
are modelled on the ASCII range (the repository only feeds ASCII
markdown/URLs through them) and `str.strip` strips the six ASCII
whitespace characters.
-/

set_option maxRecDepth 4000
set_option maxHeartbeats 1000000

abbrev PyStr := List Char

/-- Coerce a Lean string literal to the Python-string model. -/
def S (s : String) : PyStr := s.data

/-- The six ASCII whitespace characters stripped by Python's str.strip. -/
def pyIsSpace (c : Char) : Bool :=
  c.toNat = 32 || c.toNat = 9 || c.toNat = 10 || c.toNat = 13 || c.toNat = 11 || c.toNat = 12

/-- Python str.lstrip() (ASCII whitespace). -/
def pyLStrip (s : PyStr) : PyStr := s.dropWhile pyIsSpace

/-- Python str.rstrip() (ASCII whitespace). -/
def pyRStrip (s : PyStr) : PyStr := (s.reverse.dropWhile pyIsSpace).reverse

/-- Python str.strip() (ASCII whitespace). -/
def pyStrip (s : PyStr) : PyStr := pyLStrip (pyRStrip s)

/-- ASCII lower-casing of one character (model of str.lower on the
repository's ASCII data). -/
def lowerChar (c : Char) : Char :=
  if 65 ≤ c.toNat ∧ c.toNat ≤ 90 then Char.ofNat (c.toNat + 32) else c

/-- Python str.lower(), ASCII range. -/
def pyLower (s : PyStr) : PyStr := s.map lowerChar

/-- Python's substring test `sub in s` (for nonempty `sub`; with
`sub = []` it returns true exactly as Python does for `"" in s`). -/
def pyContains (s sub : PyStr) : Bool :=
  match s with
  | [] => sub.isEmpty
  | _ :: t => sub.isPrefixOf s || pyContains t sub

/-- Python truthiness-based `a or b` on strings. -/
def pyOrS (a b : PyStr) : PyStr := if a = [] then b else a

/-- Python str.replace, fuel-based structural recursion so the kernel
can evaluate it (fuel = input length always suffices: every step
consumes at least one character and one unit of fuel). -/
def replaceAllAux (pat rep : PyStr) : Nat → PyStr → PyStr
  | 0, s => s
  | _, [] => []
  | fuel + 1, c :: t =>
    if pat ≠ [] ∧ pat.isPrefixOf (c :: t)
    then rep ++ replaceAllAux pat rep fuel (t.drop (pat.length - 1))
    else c :: replaceAllAux pat rep fuel t

/-- Python str.replace(pat, rep) for a nonempty pattern: replace all
non-overlapping occurrences, left to right. -/
def replaceAll (pat rep : PyStr) (s : PyStr) : PyStr := replaceAllAux pat rep s.length s

/-- Python str.split(sep), fuel-based (fuel = input length suffices). -/
def pySplitAux (sep : PyStr) : Nat → PyStr → PyStr → List PyStr
  | 0, _, cur => [cur.reverse]
  | _, [], cur => [cur.reverse]
  | fuel + 1, c :: t, cur =>
    if sep ≠ [] ∧ sep.isPrefixOf (c :: t)
    then cur.reverse :: pySplitAux sep fuel (t.drop (sep.length - 1)) []
    else pySplitAux sep fuel t (c :: cur)

/-- Python str.split(sep) for a nonempty separator. -/
def pySplit (sep : PyStr) (s : PyStr) : List PyStr := pySplitAux sep s.length s []

/-- Python str.splitlines() restricted to the line terminator '\n'
(carriage returns are removed later by the scripts' rstrip calls):
split on newlines, with no trailing empty line. -/
def pySplitlines (s : PyStr) : List PyStr :=
  let parts := pySplit (S "\n") s
  match parts.getLast? with
  | some l => if l = [] then parts.dropLast else parts
  | none => parts

def isAsciiDigit (c : Char) : Bool := 48 ≤ c.toNat && c.toNat ≤ 57

/-- Python str.isdigit() on ASCII data. -/
def pyIsDigit (s : PyStr) : Bool := s ≠ [] && s.all isAsciiDigit

def isAsciiAlpha (c : Char) : Bool :=
  (65 ≤ c.toNat && c.toNat ≤ 90) || (97 ≤ c.toNat && c.toNat ≤ 122)

/- ------------------------------------------------------------------ -/
/- SHA-1 (hashlib.sha1(...).hexdigest()), over a byte list.            -/
/- ------------------------------------------------------------------ -/

/-- Bitwise zip of two naturals over a fixed number of bits. -/
def bitZip (f : Nat → Nat → Nat) : Nat → Nat → Nat → Nat
  | 0, _, _ => 0
  | fuel + 1, a, b => f (a % 2) (b % 2) + 2 * bitZip f fuel (a / 2) (b / 2)

def xor32 (a b : Nat) : Nat := bitZip (fun x y => (x + y) % 2) 32 a b
def and32 (a b : Nat) : Nat := bitZip (fun x y => x * y) 32 a b
def or32 (a b : Nat) : Nat := bitZip (fun x y => x + y - x * y) 32 a b

/-- Rotate a 32-bit word left by `b` bits (input assumed < 2^32). -/
def rotl (b n : Nat) : Nat := (n * 2 ^ b) % 4294967296 + n % 4294967296 / 2 ^ (32 - b)

/-- Big-endian 8-byte encoding of a length in bits. -/
def beBytes8 (n : Nat) : List Nat :=
  [n / 2 ^ 56 % 256, n / 2 ^ 48 % 256, n / 2 ^ 40 % 256, n / 2 ^ 32 % 256,
   n / 2 ^ 24 % 256, n / 2 ^ 16 % 256, n / 2 ^ 8 % 256, n % 256]

/-- SHA-1 message padding. -/
def sha1Pad (msg : List Nat) : List Nat :=
  msg ++ [128] ++ List.replicate ((64 - (msg.length + 9) % 64) % 64) 0
      ++ beBytes8 (msg.length * 8)

/-- Split a byte list into 64-byte chunks (fuel = length suffices). -/
def chunks64Aux : Nat → List Nat → List (List Nat)
  | 0, _ => []
  | _, [] => []
  | fuel + 1, c :: t => ((c :: t).take 64) :: chunks64Aux fuel ((c :: t).drop 64)

def chunks64 (l : List Nat) : List (List Nat) := chunks64Aux l.length l

/-- Big-endian 32-bit words from bytes. -/
def wordsBE : List Nat → List Nat
  | b0 :: b1 :: b2 :: b3 :: rest => (((b0 * 256 + b1) * 256 + b2) * 256 + b3) :: wordsBE rest
  | _ => []

/-- Extend 16 words to 80 for one SHA-1 block. -/
def sha1Extend (ws : List Nat) : List Nat :=
  (List.range 64).foldl
    (fun acc _ =>
      let n := acc.length
      acc ++ [rotl 1 (xor32 (acc.getD (n - 3) 0)
        (xor32 (acc.getD (n - 8) 0) (xor32 (acc.getD (n - 14) 0) (acc.getD (n - 16) 0))))])
    ws

/-- One SHA-1 compression round. -/
def sha1Round (st : Nat × Nat × Nat × Nat × Nat) (iw : Nat × Nat) :
    Nat × Nat × Nat × Nat × Nat :=
  match st, iw with
  | (a, b, c, d, e), (i, w) =>
    let f :=
      if i < 20 then or32 (and32 b c) (and32 (xor32 b 4294967295) d)
      else if i < 40 then xor32 b (xor32 c d)
      else if i < 60 then or32 (or32 (and32 b c) (and32 b d)) (and32 c d)
      else xor32 b (xor32 c d)
    let k :=
      if i < 20 then 1518500249
      else if i < 40 then 1859775393
      else if i < 60 then 2400959708
      else 3395469782
    let temp := (rotl 5 a + f + e + k + w) % 4294967296
    (temp, a, rotl 30 b, c, d)

/-- Process one 64-byte chunk. -/
def sha1Chunk (h : Nat × Nat × Nat × Nat × Nat) (chunk : List Nat) :
    Nat × Nat × Nat × Nat × Nat :=
  match h with
  | (h0, h1, h2, h3, h4) =>
    let w := sha1Extend (wordsBE chunk)
    let st := (w.enum.foldl sha1Round (h0, h1, h2, h3, h4))
    match st with
    | (a, b, c, d, e) =>
      ((h0 + a) % 4294967296, (h1 + b) % 4294967296, (h2 + c) % 4294967296,
       (h3 + d) % 4294967296, (h4 + e) % 4294967296)

def hexDigit (n : Nat) : Char := if n < 10 then Char.ofNat (48 + n) else Char.ofNat (87 + n)

def hex8 (n : Nat) : PyStr := (List.range 8).map (fun i => hexDigit (n / 16 ^ (7 - i) % 16))

/-- SHA-1 hex digest of a byte list. -/
def sha1HexBytes (msg : List Nat) : PyStr :=
  let st := (chunks64 (sha1Pad msg)).foldl sha1Chunk
    (1732584193, 4023233417, 2562383102, 271733878, 3285377520)
  match st with
  | (h0, h1, h2, h3, h4) => hex8 h0 ++ hex8 h1 ++ hex8 h2 ++ hex8 h3 ++ hex8 h4

/-- UTF-8 encoding of one character (str.encode("utf-8")). -/
def utf8Char (c : Char) : List Nat :=
  let n := c.toNat
  if n < 128 then [n]
  else if n < 2048 then [192 + n / 64, 128 + n % 64]
  else if n < 65536 then [224 + n / 4096, 128 + n / 64 % 64, 128 + n % 64]
  else [240 + n / 262144, 128 + n / 4096 % 64, 128 + n / 64 % 64, 128 + n % 64]

def utf8Bytes (s : PyStr) : List Nat := (s.map utf8Char).flatten

/-- hashlib.sha1(s.encode("utf-8")).hexdigest() as used across the repo. -/
def sha1Hex (s : PyStr) : PyStr := sha1HexBytes (utf8Bytes s)

/- ------------------------------------------------------------------ -/
/- urllib.parse.urlparse, to the extent the repo uses it               -/
/- (scheme recognition, netloc/path split, the "Invalid IPv6 URL"      -/
/-  ValueError on a mismatched square bracket in the authority, and    -/
/-  _checknetloc's ValueError on a netloc whose NFKC normalization     -/
/-  introduces one of the characters /, ?, #, @, :).                   -/
/- CPython additionally validates a *balanced* bracketed host          -/
/- (_check_bracketed_host, 3.11+), which can raise where this model    -/
/- returns .ok; no claim involves bracketed hosts, and every theorem   -/
/- below restricts to URLs containing no square bracket, where that    -/
/- check never fires and the two behaviours agree.                     -/
/- ------------------------------------------------------------------ -/

structure UrlParts where
  scheme : PyStr
  netloc : PyStr
  path : PyStr
deriving Repr, DecidableEq

def isSchemeChar (c : Char) : Bool :=
  isAsciiAlpha c || isAsciiDigit c || c.toNat = 43 || c.toNat = 45 || c.toNat = 46

/-- The scheme-splitting step of urllib.parse.urlsplit: an initial
alphabetic character followed by scheme characters up to a colon. -/
def schemeSplit (u : PyStr) : PyStr × PyStr :=
  let pre := u.takeWhile (fun c => c ≠ ':')
  let headAlpha : Bool := match u with | c :: _ => isAsciiAlpha c | [] => false
  if decide (pre.length < u.length) && !pre.isEmpty && headAlpha && pre.all isSchemeChar
  then (pyLower pre, u.drop (pre.length + 1))
  else ([], u)

/-- The tab/CR/LF removal urlsplit performs first. -/
def stripCtl (url0 : PyStr) : PyStr :=
  url0.filter (fun c => !(c = '\t' || c = '\r' || c = '\n'))

/-- Drop the fragment (split at the first '#') and then the query
(split at the first '?'), keeping the part before. -/
def dropFragQuery (r : PyStr) : PyStr :=
  (r.takeWhile (fun c => c ≠ '#')).takeWhile (fun c => c ≠ '?')

/-- The network location: everything after the "//" up to the first of
/, ?, #. -/
def netlocOf (rest : PyStr) : PyStr :=
  (rest.drop 2).takeWhile (fun c => !(c = '/' || c = '?' || c = '#'))

/-- urlsplit's "Invalid IPv6 URL" test: a square bracket on one side
only ('[' in netloc xor ']' in netloc). -/
def bracketMismatch (netloc : PyStr) : Bool :=
  (netloc.any (fun c => decide (c = '[')) && !netloc.any (fun c => decide (c = ']'))) ||
  (netloc.any (fun c => decide (c = ']')) && !netloc.any (fun c => decide (c = '[')))

/-- The codepoints whose NFKC normalization contains one of the five
characters /, ?, #, @, : (Unicode 14.0, the database of the CPython
3.11 the repo runs under). They are, in order: U+2047 "??", U+2048
"?!", U+2049 "!?", U+2100 "a/c", U+2101 "a/s", U+2105 "c/o", U+2106
"c/u", U+2A74 "::=", U+FE13 ":", U+FE16 "?", U+FE55 ":", U+FE56 "?",
U+FE5F "#", U+FE6B "@", U+FF03 "#", U+FF0F "/", U+FF1A ":", U+FF1F
"?", U+FF20 "@". -/
def nfkcInvalidCodes : List Nat :=
  [0x2047, 0x2048, 0x2049, 0x2100, 0x2101, 0x2105, 0x2106, 0x2A74,
   0xFE13, 0xFE16, 0xFE55, 0xFE56, 0xFE5F, 0xFE6B,
   0xFF03, 0xFF0F, 0xFF1A, 0xFF1F, 0xFF20]

def nfkcInvalid (c : Char) : Bool := nfkcInvalidCodes.contains c.toNat

/-- urllib.parse._checknetloc: return at once when the netloc is empty
or all-ASCII; otherwise remove the characters @ : # ? from it, NFKC-
normalize the remainder, and raise ValueError exactly when the
normalization changed the string and the result contains one of
/ ? # @ :. That condition holds iff some character of the netloc lies
in nfkcInvalidCodes: a netloc never contains a literal slash (the
authority ends at the first /), the other four ASCII characters are
removed before normalizing, ASCII is NFKC-stable, compatibility
decomposition acts per character, and canonical composition only forms
non-ASCII precomposed characters, so a forbidden ASCII character can
appear in the normalized string only as part of the compatibility
decomposition of one of the nineteen codepoints above — and any such
codepoint both changes under normalization and is non-ASCII, making
the early all-ASCII return consistent with this reduction. -/
def checknetlocFails (netloc : PyStr) : Bool := netloc.any nfkcInvalid

def quoteCh : PyStr := [Char.ofNat 39]

/-- The message of the ValueError _checknetloc raises:
"netloc <quoted netloc> contains invalid characters under NFKC
normalization" (the netloc is wrapped in single quotes). -/
def checknetlocMsg (netloc : PyStr) : PyStr :=
  S "netloc " ++ quoteCh ++ netloc ++ quoteCh ++
    S " contains invalid characters under NFKC normalization"

/-- urllib.parse.urlsplit: remove tab/CR/LF, split off the scheme, the
network location (up to the first of /, ?, #) and drop query/fragment;
raise ValueError on a mismatched square bracket in the netloc, and
then ValueError again if the netloc fails _checknetloc's NFKC
validation (when there is no "//" the netloc is empty and _checknetloc
returns at once). -/
def urlsplitM (url0 : PyStr) : Except PyStr UrlParts :=
  if (S "//").isPrefixOf (schemeSplit (stripCtl url0)).2 then
    if bracketMismatch (netlocOf (schemeSplit (stripCtl url0)).2)
    then .error (S "Invalid IPv6 URL")
    else if checknetlocFails (netlocOf (schemeSplit (stripCtl url0)).2)
    then .error (checknetlocMsg (netlocOf (schemeSplit (stripCtl url0)).2))
    else .ok ⟨(schemeSplit (stripCtl url0)).1, netlocOf (schemeSplit (stripCtl url0)).2,
      dropFragQuery (((schemeSplit (stripCtl url0)).2.drop 2).drop
        (netlocOf (schemeSplit (stripCtl url0)).2).length)⟩
  else .ok ⟨(schemeSplit (stripCtl url0)).1, [], dropFragQuery (schemeSplit (stripCtl url0)).2⟩

/-- urllib.parse._splitparams: drop a ";params" suffix from the last
path segment. -/
def splitParams (p : PyStr) : PyStr :=
  if pyContains p (S "/") then
    let segs := pySplit (S "/") p
    let last := segs.getLast?.getD []
    if pyContains last (S ";")
    then List.intercalate (S "/") (segs.dropLast ++ [last.takeWhile (fun c => c ≠ ';')])
    else p
  else p.takeWhile (fun c => c ≠ ';')

/-- urllib.parse.urlparse (fields used by the repo: netloc and path). -/
def urlparseM (url : PyStr) : Except PyStr UrlParts :=
  (urlsplitM url).map (fun u => ⟨u.scheme, u.netloc, splitParams u.path⟩)

/- ------------------------------------------------------------------ -/
/- adapters.detect                                                     -/
/- ------------------------------------------------------------------ -/

/-- The dict returned by adapters.detect: a "provider" key plus the
vendor-specific keys that the matched branch sets (absent keys are
`none`). -/
structure DetectInfo where
  provider : PyStr
  company : Option PyStr := none
  job : Option PyStr := none
  id : Option PyStr := none
  slug : Option PyStr := none
deriving Repr, DecidableEq

/-- Python truthiness of `info.get(k)` for an optional string field. -/
def optTruthy : Option PyStr → Bool
  | none => false
  | some s => s ≠ []

/-- The if-chain of adapters.detect, applied to the already computed
host (netloc lowered, "www." removed) and nonempty path segments. -/
def detectCore (host : PyStr) (parts : List PyStr) : DetectInfo :=
  if pyContains host (S "lever.co") && decide (parts.length ≥ 2) then
    { provider := S "lever", company := parts[0]?, job := parts[1]? }
  else if pyContains host (S "greenhouse.io") && decide (parts.length ≥ 3) &&
      decide (parts[1]? = some (S "jobs")) then
    let p2 := (parts[2]?).getD []
    { provider := S "greenhouse", company := parts[0]?,
      id := some (if pyIsDigit p2 then p2 else []) }
  else if pyContains host (S "ashbyhq.com") && decide (parts.length ≥ 2) then
    { provider := S "ashby", company := parts[0]?, slug := parts.getLast? }
  else if pyContains host (S "smartrecruiters.com") && decide (parts.length ≥ 2) then
    let last := (parts.getLast?).getD []
    { provider := S "smartrecruiters", company := parts[0]?,
      id := some (last.takeWhile isAsciiDigit) }
  else if (S "recruitee.com").isSuffixOf host then
    { provider := S "recruitee", company := (pySplit (S ".") host).head?.getD [],
      slug := some ((parts.getLast?).getD []) }
  else if (S "bamboohr.com").isSuffixOf host then
    { provider := S "bamboohr", company := (pySplit (S ".") host).head?.getD [] }
  else if pyContains host (S "myworkdayjobs.com") || pyContains host (S "workday.com") then
    { provider := S "workday" }
  else if pyContains host (S "simplify.jobs") then
    { provider := S "simplify" }
  else if pyContains host (S "oraclecloud.com") then
    { provider := S "oracle" }
  else
    { provider := S "generic" }

/-- Host as computed by adapters.detect:
`u.netloc.lower().replace("www.", "")`. -/
def detectHost (netloc : PyStr) : PyStr := replaceAll (S "www.") [] (pyLower netloc)

/-- Path segments as computed by adapters.detect:
`[p for p in u.path.split("/") if p]`. -/
def detectParts (path : PyStr) : List PyStr := (pySplit (S "/") path).filter (· ≠ [])

/-- adapters.detect: classify a job URL by ATS vendor.  The urlparse
call happens before any pattern matching, so its ValueError on a
malformed authority propagates. -/
def detect (url : PyStr) : Except PyStr DetectInfo :=
  (urlparseM url).map (fun u => detectCore (detectHost u.netloc) (detectParts u.path))

/-- Total host accessor for stating theorems (defaults to [] when
urlparse fails). -/
def hostOfUrl (url : PyStr) : PyStr :=
  match urlparseM url with
  | .ok u => u.netloc
  | .error _ => []

/- ------------------------------------------------------------------ -/
/- Regex scanners.  Each Python pattern used by the repo is            -/
/- deterministic: every greedy character class is a maximal run that   -/
/- excludes its closing delimiter, so backtracking cannot shorten it   -/
/- (the only genuine backtracking, over the `[^>]*` of the anchor-tag  -/
/- pattern, is enumerated longest-first below).  re.findall/re.sub    -/
/- scan left to right without overlap; the drivers use fuel = input   -/
/- length, which suffices because every step consumes a character.    -/
/- ------------------------------------------------------------------ -/

/-- ASCII case-insensitive prefix test against a lowercase pattern. -/
def ciPrefix (pat : PyStr) (s : PyStr) : Bool := pat.isPrefixOf (pyLower (s.take pat.length))

/-- Match `https?://` at the head (case-sensitive); greedy `s?` prefers
"https".  Returns the consumed length. -/
def matchHttpScheme (s : PyStr) : Option Nat :=
  if (S "https://").isPrefixOf s then some 8
  else if (S "http://").isPrefixOf s then some 7
  else none

/-- Match `https?://` at the head under re.I. -/
def matchHttpSchemeCI (s : PyStr) : Option Nat :=
  if ciPrefix (S "https://") s then some 8
  else if ciPrefix (S "http://") s then some 7
  else none

/-- Generic re.findall driver: try the matcher at every position,
skip one character on failure, resume after each (nonempty) match. -/
def scanAux {α : Type} (m : PyStr → Option (α × PyStr)) : Nat → PyStr → List α
  | 0, _ => []
  | _, [] => []
  | fuel + 1, s =>
    match m s, s with
    | some (a, rest), _ => a :: scanAux m fuel rest
    | none, _ :: t => scanAux m fuel t
    | none, [] => []

/-- Generic re.sub driver: emit the replacement at each match, copy one
character otherwise; replacements are not rescanned. -/
def subAux (m : PyStr → Option (PyStr × PyStr)) : Nat → PyStr → PyStr
  | 0, s => s
  | _, [] => []
  | fuel + 1, s =>
    match m s, s with
    | some (rep, rest), _ => rep ++ subAux m fuel rest
    | none, c :: t => c :: subAux m fuel t
    | none, [] => []

/-- Try `\[([^\]]+)\]\((https?://[^)]+)\)` at the head; returns
(link text, url, rest). -/
def matchMdLinkAt (s : PyStr) : Option (PyStr × PyStr × PyStr) :=
  match s with
  | '[' :: t =>
    let txt := t.takeWhile (fun c => c ≠ ']')
    if txt = [] then none else
    match t.drop txt.length with
    | ']' :: '(' :: u =>
      match matchHttpScheme u with
      | some k =>
        let body := (u.drop k).takeWhile (fun c => c ≠ ')')
        if body = [] then none else
        match (u.drop k).drop body.length with
        | ')' :: rest => some (txt, u.take k ++ body, rest)
        | _ => none
      | none => none
    | _ => none
  | _ => none

/-- re.findall of the markdown-link pattern. -/
def mdLinkFindAll (s : PyStr) : List (PyStr × PyStr) :=
  scanAux (fun s => (matchMdLinkAt s).map (fun p => ((p.1, p.2.1), p.2.2))) s.length s

/-- First index (if any) at which the lowercase pattern matches
case-insensitively. -/
def firstCiIdx (pat : PyStr) (s : PyStr) : Option Nat :=
  if ciPrefix pat s then some 0
  else match s with
    | [] => none
    | _ :: t => (firstCiIdx pat t).map (· + 1)

/-- The anchor-tag pattern after its greedy `[^>]*`:
`href=["'](https?://[^"']+)["'][^>]*>(.*?)</a>` under re.I.  Returns
(url, text, rest). -/
def matchAnchorTail (s : PyStr) : Option (PyStr × PyStr × PyStr) :=
  if ciPrefix (S "href=") s then
    match s.drop 5 with
    | q :: v =>
      if q = '"' ∨ q = '\'' then
        match matchHttpSchemeCI v with
        | some k =>
          let body := (v.drop k).takeWhile (fun c => !(c = '"' || c = '\''))
          if body = [] then none else
          match (v.drop k).drop body.length with
          | q2 :: rest1 =>
            if q2 = '"' ∨ q2 = '\'' then
              let gap := rest1.takeWhile (fun c => c ≠ '>')
              match rest1.drop gap.length with
              | '>' :: rest2 =>
                (firstCiIdx (S "</a>") rest2).map
                  (fun m => (v.take k ++ body, rest2.take m, rest2.drop (m + 4)))
              | _ => none
            else none
          | [] => none
        | none => none
      else none
    | [] => none
  else none

/-- Backtrack the greedy `[^>]*` after `<a`, longest run first (j is
the number of consumed characters). -/
def tryAnchorJs (t : PyStr) : Nat → Option ((PyStr × PyStr) × PyStr)
  | 0 => (matchAnchorTail t).map (fun p => ((p.1, p.2.1), p.2.2))
  | j + 1 =>
    match matchAnchorTail (t.drop (j + 1)) with
    | some p => some ((p.1, p.2.1), p.2.2)
    | none => tryAnchorJs t j

/-- Try the full anchor pattern `<a[^>]*href=...` (re.I) at the head;
the consumed `[^>]*` must stay inside the maximal non-'>' run. -/
def matchAnchorAt (s : PyStr) : Option ((PyStr × PyStr) × PyStr) :=
  match s with
  | c0 :: c1 :: t =>
    if c0 = '<' ∧ lowerChar c1 = 'a' then tryAnchorJs t (t.takeWhile (fun c => c ≠ '>')).length
    else none
  | _ => none

/-- re.findall of the anchor pattern; elements are (url, text). -/
def anchorFindAll (s : PyStr) : List (PyStr × PyStr) := scanAux matchAnchorAt s.length s

/-- Try `\((https?://[^)]+)\)` (watch_core LINK_RX_1) at the head. -/
def matchParenUrlAt (s : PyStr) : Option (PyStr × PyStr) :=
  match s with
  | '(' :: u =>
    match matchHttpScheme u with
    | some k =>
      let body := (u.drop k).takeWhile (fun c => c ≠ ')')
      if body = [] then none else
      match (u.drop k).drop body.length with
      | ')' :: rest => some (u.take k ++ body, rest)
      | _ => none
    | none => none
  | _ => none

def parenUrlFindAll (s : PyStr) : List PyStr := scanAux matchParenUrlAt s.length s

/-- Try `href=["'](https?://[^"']+)["']` (watch_core LINK_RX_2, re.I)
at the head. -/
def matchHrefUrlAt (s : PyStr) : Option (PyStr × PyStr) :=
  if ciPrefix (S "href=") s then
    match s.drop 5 with
    | q :: v =>
      if q = '"' ∨ q = '\'' then
        match matchHttpSchemeCI v with
        | some k =>
          let body := (v.drop k).takeWhile (fun c => !(c = '"' || c = '\''))
          if body = [] then none else
          match (v.drop k).drop body.length with
          | q2 :: rest => if q2 = '"' ∨ q2 = '\'' then some (v.take k ++ body, rest) else none
          | [] => none
        | none => none
      else none
    | [] => none
  else none

def hrefUrlFindAll (s : PyStr) : List PyStr := scanAux matchHrefUrlAt s.length s

/-- Try the image-wrapped-link pattern
`\[!\[[^\]]*\]\([^)]+\)\]\((https?://[^)]+)\)` at the head; returns the
captured apply URL and the rest. -/
def matchImgLinkAt (s : PyStr) : Option (PyStr × PyStr) :=
  match s with
  | '[' :: '!' :: '[' :: t =>
    let alt := t.takeWhile (fun c => c ≠ ']')
    match t.drop alt.length with
    | ']' :: '(' :: u =>
      let img := u.takeWhile (fun c => c ≠ ')')
      if img = [] then none else
      match u.drop img.length with
      | ')' :: ']' :: '(' :: v =>
        match matchHttpScheme v with
        | some k =>
          let body := (v.drop k).takeWhile (fun c => c ≠ ')')
          if body = [] then none else
          match (v.drop k).drop body.length with
          | ')' :: rest => some (v.take k ++ body, rest)
          | _ => none
        | none => none
      | _ => none
    | _ => none
  | _ => none

/-- Try the bare-image pattern `!\[[^\]]*\]\([^)]+\)` at the head. -/
def matchBareImgAt (s : PyStr) : Option (PyStr × PyStr) :=
  match s with
  | '!' :: '[' :: t =>
    let alt := t.takeWhile (fun c => c ≠ ']')
    match t.drop alt.length with
    | ']' :: '(' :: u =>
      let img := u.takeWhile (fun c => c ≠ ')')
      if img = [] then none else
      match u.drop img.length with
      | ')' :: rest => some (S " ", rest)
      | _ => none
    | _ => none
  | _ => none

/- ------------------------------------------------------------------ -/
/- 02_parse_table.py / 03_watch_once.py: extraction pipeline           -/
/- ------------------------------------------------------------------ -/

/-- normalize_images: collapse `[![alt](img)](apply)` to
`[Apply](apply)`, then blank out remaining bare images. -/
def normalize_images (line : PyStr) : PyStr :=
  let l1 := subAux
    (fun s => (matchImgLinkAt s).map (fun p => (S "[Apply](" ++ p.1 ++ S ")", p.2)))
    line.length line
  subAux matchBareImgAt l1.length l1

/-- links_in_line: markdown links plus anchor tags, anchor pairs
flipped to (text, url). -/
def links_in_line (line : PyStr) : List (PyStr × PyStr) :=
  mdLinkFindAll line ++ (anchorFindAll line).map (fun p => (p.2, p.1))

def SECTIONS : List PyStr :=
  [S "Software Engineering Internship Roles",
   S "Product Management Internship Roles",
   S "Data Science, AI & Machine Learning Internship Roles",
   S "Quantitative Finance Internship Roles",
   S "Hardware Engineering Internship Roles",
   S "Other Internship Roles"]

/-- re.sub(r"^#+\s*", "", line): strip leading hashes then whitespace
(anchored at the start). -/
def stripHeadingHashes (line : PyStr) : PyStr :=
  match line with
  | '#' :: _ => (line.dropWhile (fun c => c = '#')).dropWhile pyIsSpace
  | _ => line

/-- re.sub(r"[^a-z0-9,& ]+", "", s.lower()): normalize away
emojis/punctuation. -/
def normSection (s : PyStr) : PyStr :=
  (pyLower s).filter
    (fun c => (97 ≤ c.toNat && c.toNat ≤ 122) || isAsciiDigit c || c = ',' || c = '&' || c = ' ')

/-- in_roles_section_title (identical in 02_parse_table and
03_watch_once). -/
def in_roles_section_title (line : PyStr) : Bool :=
  if ¬ (S "#").isPrefixOf (pyStrip line) then false
  else
    let title := pyStrip (stripHeadingHashes line)
    SECTIONS.any (fun sec => pyContains (normSection title) (normSection sec))

/-- The heading test of the parse_jobs line loop:
`line.strip().startswith("#")`. -/
def startsWithHash (line : PyStr) : Bool := (S "#").isPrefixOf (pyStrip line)

def ATS_DOMAINS_PT : List PyStr :=
  [S "simplify.jobs", S "lever.co", S "greenhouse.io", S "myworkdayjobs.com",
   S "ashbyhq.com", S "smartrecruiters.com", S "recruitee.com", S "bamboohr.com",
   S "icims.com", S "workable.com", S "jobvite.com", S "oraclecloud.com",
   S "adp.com", S "dayforcehcm.com", S "workday.com"]

/-- `any(d in url.lower() for d in ATS_DOMAINS)` of parse_jobs: the ATS
test is a substring test on the whole lowercased URL. -/
def isAts03 (url : PyStr) : Bool := ATS_DOMAINS_PT.any (fun d => pyContains (pyLower url) d)

def selectAppUrlAux : List (PyStr × PyStr) → PyStr
  | [] => []
  | p :: rest => if isAts03 p.2 then pyStrip p.2 else selectAppUrlAux rest

/-- The apply-URL selection loop of parse_jobs: scan the links in
reverse and take the first (i.e. the last link) whose lowercased URL
contains a known ATS domain, stripped. -/
def selectAppUrl (links : List (PyStr × PyStr)) : PyStr := selectAppUrlAux links.reverse

/-- re.search(r"apply|here|link|^image:", text, re.I). -/
def companyStop (text : PyStr) : Bool :=
  let t := pyLower text
  pyContains t (S "apply") || pyContains t (S "here") || pyContains t (S "link") ||
    (S "image:").isPrefixOf t

structure Row where
  company : PyStr
  url : PyStr
deriving Repr, DecidableEq

/-- The per-line body of 03_watch_once.parse_jobs for a non-heading
line while inside a recognized section.  Returns none when the line
contributes no candidate.  The error case models the ValueError that
urlparse can raise inside the company fallback. -/
def lineRow (raw : PyStr) : Except PyStr (Option Row) :=
  let line := pyRStrip raw
  if ¬ pyContains line (S "http") then .ok none else
  let line2 := normalize_images line
  let links := links_in_line line2
  if links = [] then .ok none else
  let appUrl := selectAppUrl links
  if appUrl = [] ∨ pyContains appUrl (S "top-list") then .ok none else
  match links.find? (fun p => p.1 ≠ [] && !companyStop p.1) with
  | some p => .ok (some ⟨pyStrip p.1, appUrl⟩)
  | none => (urlparseM appUrl).map (fun u => some ⟨replaceAll (S "www.") [] u.netloc, appUrl⟩)

/-- The line loop of 03_watch_once.parse_jobs: headings toggle the
in-section state; lines outside a recognized section are skipped. -/
def parseJobsLines : List PyStr → Bool → Except PyStr (List Row)
  | [], _ => .ok []
  | raw :: rest, inSec =>
    let line := pyRStrip raw
    if startsWithHash line then parseJobsLines rest (in_roles_section_title line)
    else if ¬ inSec then parseJobsLines rest inSec
    else do
      let r? ← lineRow raw
      let rs ← parseJobsLines rest inSec
      pure (match r? with | some r => r :: rs | none => rs)

/-- 03_watch_once.parse_jobs. -/
def parse_jobs (md : PyStr) : Except PyStr (List Row) := parseJobsLines (pySplitlines md) false

/- ------------------------------------------------------------------ -/
/- The de-dupe loops of 02_parse_table/03_watch_once __main__          -/
/- ------------------------------------------------------------------ -/

/-- The dedup key `(r["company"].strip().lower(), r["url"].strip())`. -/
def dedupKey (r : Row) : PyStr × PyStr := (pyLower (pyStrip r.company), pyStrip r.url)

def dedupRowsAux : List Row → List (PyStr × PyStr) → List Row
  | [], _ => []
  | r :: rest, seen =>
    if seen.any (fun k => decide (k = dedupKey r)) then dedupRowsAux rest seen
    else r :: dedupRowsAux rest (dedupKey r :: seen)

/-- The first-occurrence de-dupe by (company, url) shared by
02_parse_table and 03_watch_once. -/
def dedupRows (rows : List Row) : List Row := dedupRowsAux rows []

/- ------------------------------------------------------------------ -/
/- 03_watch_once: row ids and the insert/collect-new loop              -/
/- ------------------------------------------------------------------ -/

/-- row_id: sha1(f"{company.strip()}|{url.strip()}"). -/
def row_id (r : Row) : PyStr := sha1Hex (pyStrip r.company ++ S "|" ++ pyStrip r.url)

structure SeenRow where
  id : PyStr
  company : PyStr
  url : PyStr
deriving Repr, DecidableEq

/-- The "insert + collect new" loop of 03_watch_once __main__: insert
each row under its sha1 primary key; a key collision raises
sqlite3.IntegrityError which the loop swallows; rows whose insert
succeeded are collected as new unless seed mode is on.  (The
first_seen column, a sqlite datetime default, is not modelled.) -/
def watchOnceDiff (seed : Bool) : List Row → List SeenRow → List SeenRow × List Row
  | [], l => (l, [])
  | r :: rest, l =>
    let rid := row_id r
    if l.any (fun s => decide (s.id = rid)) then watchOnceDiff seed rest l
    else
      let res := watchOnceDiff seed rest (l ++ [⟨rid, r.company, r.url⟩])
      if seed then res else (res.1, r :: res.2)

/- ------------------------------------------------------------------ -/
/- details_cache.py                                                    -/
/- ------------------------------------------------------------------ -/

structure CacheRow where
  url : PyStr
  title : PyStr
  location : PyStr
  provider : PyStr
  updatedAt : PyStr
deriving Repr, DecidableEq

/-- details_cache.put: INSERT OR REPLACE keyed by url — any row with
the same url is removed and the fresh row stored with a refreshed
updated_at (`now`). -/
def cachePut (now url title location provider : PyStr) (tbl : List CacheRow) : List CacheRow :=
  tbl.filter (fun r => !decide (r.url = url)) ++
    [⟨url, pyOrS title [], pyOrS location [], pyOrS provider [], now⟩]

/-- details_cache.get: the (title, location, provider) dict of the row
keyed by url, with null columns read back as empty strings. -/
def cacheGet (url : PyStr) (tbl : List CacheRow) : Option (PyStr × PyStr × PyStr) :=
  (tbl.find? (fun r => decide (r.url = url))).map
    (fun r => (pyOrS r.title [], pyOrS r.location [], pyOrS r.provider []))

/- ------------------------------------------------------------------ -/
/- Filters (watch_core._load_filters/_passes_filters/_is_priority and  -/
/- the 03_watch_once variants)                                         -/
/- ------------------------------------------------------------------ -/

/-- The dict _details_for / details_for return: title, location, site
(absent values are empty strings, matching .get defaults). -/
structure Det where
  title : PyStr := []
  location : PyStr := []
  site : PyStr := []
deriving Repr, DecidableEq

structure Filters where
  include_keywords : List PyStr := []
  exclude_keywords : List PyStr := []
  company_allowlist : List PyStr := []
  company_blocklist : List PyStr := []
  locations_any : List PyStr := []
  priority_companies : List PyStr := []
  priority_keywords : List PyStr := []
deriving Repr, DecidableEq

/-- The default configuration of _load_filters / load_filters, used
when filters.json is absent: every list empty. -/
def defaultFilters : Filters := {}

/-- watch_core._passes_filters. -/
def passes_filters (company : PyStr) (det : Det) (F : Filters) : Bool :=
  let text := pyLower (pyOrS company [] ++ S " " ++ det.title ++ S " " ++ det.location)
  if F.company_blocklist ≠ [] ∧
      (F.company_blocklist.map pyLower).any (fun c => decide (pyLower company = c)) then false
  else if F.company_allowlist ≠ [] ∧
      ¬ (F.company_allowlist.map pyLower).any (fun c => decide (pyLower company = c)) then false
  else if F.exclude_keywords ≠ [] ∧
      F.exclude_keywords.any (fun k => pyContains text (pyLower k)) then false
  else if F.include_keywords ≠ [] ∧
      ¬ F.include_keywords.any (fun k => pyContains text (pyLower k)) then false
  else if F.locations_any ≠ [] ∧
      ¬ F.locations_any.any (fun k => pyContains (pyLower det.location) (pyLower k)) then false
  else true

/-- watch_core._is_priority (Python returns the truthiness of an
and/or expression; its boolean value is modelled). -/
def is_priority (company : PyStr) (det : Det) (F : Filters) : Bool :=
  let t := pyLower (pyOrS company [] ++ S " " ++ det.title)
  (F.priority_companies ≠ [] &&
    (F.priority_companies.map pyLower).any (fun c => decide (pyLower company = c))) ||
  (F.priority_keywords ≠ [] && F.priority_keywords.any (fun k => pyContains t (pyLower k)))

/-- 03_watch_once.textify. -/
def textify (r : Row) (det : Det) : PyStr :=
  pyLower (r.company ++ S " " ++ det.title ++ S " " ++ det.location)

/-- 03_watch_once.passes_filters (location is deliberately not
filtered there). -/
def passes_filters_wo (r : Row) (det : Det) (F : Filters) : Bool :=
  let t := textify r det
  if F.company_blocklist ≠ [] ∧
      (F.company_blocklist.map pyLower).any (fun c => decide (pyLower r.company = c)) then false
  else if F.exclude_keywords.any (fun k => pyContains t (pyLower k)) then false
  else if F.company_allowlist ≠ [] ∧
      ¬ (F.company_allowlist.map pyLower).any (fun c => decide (pyLower r.company = c)) then false
  else if F.include_keywords ≠ [] ∧
      ¬ F.include_keywords.any (fun k => pyContains t (pyLower k)) then false
  else true

/- ------------------------------------------------------------------ -/
/- watch_core: link extraction and the scan orchestrator               -/
/- ------------------------------------------------------------------ -/

def ATS_DOMAINS : List PyStr :=
  [S "simplify.jobs", S "lever.co", S "greenhouse.io", S "ashbyhq.com",
   S "myworkdayjobs.com", S "workday.com", S "smartrecruiters.com", S "icims.com",
   S "bamboohr.com", S "workable.com", S "jobvite.com", S "oraclecloud.com",
   S "recruitee.com", S "adp.com", S "dayforcehcm.com"]

/-- watch_core._is_app_url: reject "top-list" URLs, then a substring
test of each ATS domain against the whole lowercased URL. -/
def is_app_url (url : PyStr) : Bool :=
  let u := pyLower url
  if pyContains u (S "top-list") then false
  else ATS_DOMAINS.any (fun d => pyContains u d)

/-- First-occurrence dedup standing in for the set() union in
_extract_links (CPython set iteration order is unspecified; no claim
depends on the candidate order). -/
def dedupFirstAux : List PyStr → List PyStr → List PyStr
  | [], _ => []
  | u :: rest, seen =>
    if seen.any (fun v => decide (v = u)) then dedupFirstAux rest seen
    else u :: dedupFirstAux rest (u :: seen)

def dedupFirst (l : List PyStr) : List PyStr := dedupFirstAux l []

/-- watch_core._extract_links: the union of both regexes' matches,
each stripped. -/
def extract_links (md : PyStr) : List PyStr :=
  (dedupFirst (parenUrlFindAll md ++ hrefUrlFindAll md)).map pyStrip

/-- Environment of one watch_core.run_scan run: the README text each
repo's fetch produced, the details dict _details_for returns per URL,
and the timestamp (_now_iso is modelled as constant within the run —
no claim depends on timestamps).  Modelling fetch and enrichment as
total queries conditions on the network having answered; the interior
of _details_for (an OpenGraph fallback scrape) is opaque to every
claim, only the fact of its invocation matters. -/
structure ScanEnv where
  fetchReadme : PyStr → PyStr
  detailsFor : PyStr → Det
  now : PyStr

structure Source where
  label : Option PyStr := none
  repo : PyStr
deriving Repr, DecidableEq

/-- `s.get("label") or s.get("repo")`. -/
def sourceLabel (s : Source) : PyStr :=
  if optTruthy s.label then s.label.getD [] else s.repo

structure Cand where
  label : PyStr
  company : PyStr
  url : PyStr
deriving Repr, DecidableEq

/-- The candidate-collection loop of run_scan: per source, fetch the
README, extract links, keep application URLs, tag each with the source
label and an empty company. -/
def scanCandidates (env : ScanEnv) (sources : List Source) : List Cand :=
  (sources.map (fun s =>
    let md := pyOrS (env.fetchReadme s.repo) []
    ((extract_links md).filter is_app_url).map
      (fun u => (⟨sourceLabel s, [], u⟩ : Cand)))).flatten

structure WcRow where
  id : PyStr
  company : PyStr
  url : PyStr
  firstSeen : PyStr
deriving Repr, DecidableEq

structure Item where
  ts : PyStr
  label : PyStr
  company : PyStr
  url : PyStr
deriving Repr, DecidableEq

/-- The insert loop of run_scan: the id is sha1 of the URL alone; both
the id primary key and the url UNIQUE constraint of the seen table
raise sqlite3.IntegrityError, silently swallowed; in non-seed mode a
successful insert adds the candidate to the new items. -/
def wcInsertLoop (now : PyStr) (seed : Bool) : List Cand → List WcRow → List WcRow × List Item
  | [], l => (l, [])
  | c :: rest, l =>
    let rid := sha1Hex c.url
    if l.any (fun r => decide (r.id = rid) || decide (r.url = c.url)) then
      wcInsertLoop now seed rest l
    else
      let res := wcInsertLoop now seed rest (l ++ [⟨rid, pyOrS c.company [], c.url, now⟩])
      if seed then res else (res.1, (⟨now, c.label, c.company, c.url⟩ : Item) :: res.2)

/-- Observable notification/enrichment events of a run. -/
inductive Ev where
  | mac (title body : PyStr)
  | phone (title body : PyStr) (priority : Nat)
  | enrichCall (url : PyStr)
deriving Repr, DecidableEq

structure FeedItem where
  ts : PyStr
  label : PyStr
  company : PyStr
  title : PyStr
  location : PyStr
  url : PyStr
  urgent : Bool
deriving Repr, DecidableEq

/-- The enrich/filter/notify loop of run_scan over the new items: each
item queries _details_for (recorded as an enrichCall event), computes
urgency, drops items failing the filters, and for kept items emits a
desktop and a push notification and adds a feed entry.
Returns (events, feed batch, kept count). -/
def notifyLoop (env : ScanEnv) (F : Filters) : List Item → List Ev × List FeedItem × Nat
  | [] => ([], [], 0)
  | it :: rest =>
    let det := env.detailsFor it.url
    let title := pyOrS det.title (S "New internship")
    let loc := pyOrS det.location []
    let urgent := is_priority it.company det F
    let res := notifyLoop env F rest
    if !passes_filters it.company det F then
      (Ev.enrichCall it.url :: res.1, res.2.1, res.2.2)
    else
      let prio := if urgent then 5 else 3
      let t := pyOrS it.company (S "New internship") ++ S " — " ++ title
      let b := it.label ++ S "  " ++ loc ++ S "\n" ++ it.url
      (Ev.enrichCall it.url :: Ev.mac t b :: Ev.phone t b prio :: res.1,
       (⟨it.ts, it.label, it.company, title, loc, it.url, urgent⟩ : FeedItem) :: res.2.1,
       res.2.2 + 1)

structure ScanRes where
  ledger : List WcRow
  newItems : List Item
  events : List Ev
  enriched : List FeedItem
  kept : Nat

/-- watch_core.run_scan.  The sources/filters that Python loads from
JSON files are parameters; stdout prints and the rolling feed file
(touched only when the enriched batch is nonempty) are not modelled.
Returns the final seen table, the collected new items, the emitted
events, and run_scan's (enriched_items, kept) return value. -/
def run_scan (env : ScanEnv) (sources : List Source) (F : Filters)
    (seed notify_when_zero : Bool) ( zero_prefix : PyStr) (l0 : List WcRow) : ScanRes :=
  let cands := scanCandidates env sources
  let d := wcInsertLoop env.now seed cands l0
  let n := notifyLoop env F d.2
  let zeroEvs :=
    if seed then []
    else if n.2.2 = 0 ∧ notify_when_zero then
      let t := S "Internship Watcher"
      let b := (if zero_prefix ≠ [] then zero_prefix ++ S ": " else []) ++
        S "You're all caught up ✅"
      [Ev.mac t b, Ev.phone t b 2]
    else []
  ⟨d.1, d.2, n.1 ++ zeroEvs, n.2.1, n.2.2⟩

/- ------------------------------------------------------------------ -/
/- adapters.enrich_from_url.  JSON values are modelled by `J`; the     -/
/- network (requests.get / r.json()) and bs4's HTML parsing are the    -/
/- `Net` environment.  Python exceptions inside the try-block (network -/
/- errors via _get_json/_get_html, AttributeError/TypeError/KeyError   -/
/- on unexpected JSON shapes) are `Except.error ()`.  JSON numbers are -/
/- modelled as integers (no claim involves float payloads).            -/
/- ------------------------------------------------------------------ -/

inductive J where
  | null
  | jb (b : Bool)
  | jn (n : Int)
  | js (s : PyStr)
  | ja (xs : List J)
  | jo (kvs : List (PyStr × J))

structure Net where
  getJson : PyStr → Except Unit J
  getHtml : PyStr → Except Unit PyStr
  soupMeta : PyStr → PyStr → Option PyStr
  soupTitle : PyStr → Option PyStr

/-- Python truthiness of a JSON value. -/
def jTruthy : J → Bool
  | .null => false
  | .jb b => b
  | .jn n => n ≠ 0
  | .js s => s ≠ []
  | .ja xs => !xs.isEmpty
  | .jo kvs => !kvs.isEmpty

/-- dict.get(k, d): AttributeError unless the value is a dict. -/
def jGetD (j : J) (k : PyStr) (d : J) : Except Unit J :=
  match j with
  | .jo kvs => .ok (((kvs.find? (fun p => decide (p.1 = k))).map (fun p => p.2)).getD d)
  | _ => .error ()

/-- dict.get(k) (default None). -/
def jGet (j : J) (k : PyStr) : Except Unit J := jGetD j k .null

/-- Truthiness-based `a or b` on JSON values. -/
def jOr (a b : J) : J := if jTruthy a then a else b

def jIsObj : J → Bool | .jo _ => true | _ => false
def jIsStr : J → Bool | .js _ => true | _ => false
def jIsArr : J → Bool | .ja _ => true | _ => false

def jArrElems : J → List J | .ja xs => xs | _ => []

/-- A string operation on an expected-string value (.lower(), `in`):
AttributeError/TypeError unless it is a string. -/
def jAsStr : J → Except Unit PyStr
  | .js s => .ok s
  | _ => .error ()

def jLowerStr (j : J) : Except Unit PyStr := (jAsStr j).map pyLower

/-- `for x in j`: lists yield elements, strings their characters,
dicts their keys; other values raise TypeError. -/
def jIter : J → Except Unit (List J)
  | .ja xs => .ok xs
  | .js s => .ok (s.map (fun c => J.js [c]))
  | .jo kvs => .ok (kvs.map (fun p => J.js p.1))
  | _ => .error ()

/-- `j[0]`: lists index (IndexError when empty), strings index, other
values raise (KeyError/TypeError). -/
def jIndex0 : J → Except Unit J
  | .ja (x :: _) => .ok x
  | .js (c :: _) => .ok (J.js [c])
  | _ => .error ()

/-- `", ".join([p for p in pieces if p])`: keep truthy pieces, require
strings (join raises TypeError otherwise). -/
def joinTruthyStrs (pieces : List J) : Except Unit PyStr := do
  let strs ← (pieces.filter jTruthy).mapM jAsStr
  pure (List.intercalate (S ", ") strs)

/-- The character class `[A-Za-z .'-]` of the _og_meta location
pattern. -/
def locClassChar (c : Char) : Bool :=
  isAsciiAlpha c || c = ' ' || c = '.' || c = '\'' || c = '-'

/-- Try `(Remote|Hybrid|Onsite|[A-Za-z .'-]+,\s*[A-Z]{2}|USA|Canada|UK|Europe)`
(re.I) at the head; alternatives in pattern order; each greedy piece is
deterministic (the class excludes the following delimiter).  Returns
group(0). -/
def matchLocAt (s : PyStr) : Option PyStr :=
  if ciPrefix (S "remote") s then some (s.take 6)
  else if ciPrefix (S "hybrid") s then some (s.take 6)
  else if ciPrefix (S "onsite") s then some (s.take 6)
  else
    let run := s.takeWhile locClassChar
    let cityMatch : Option PyStr :=
      if run ≠ [] then
        match s.drop run.length with
        | ',' :: v =>
          let ws := v.takeWhile pyIsSpace
          match v.drop ws.length with
          | a :: b :: _ =>
            if isAsciiAlpha a ∧ isAsciiAlpha b
            then some (s.take (run.length + 1 + ws.length + 2)) else none
          | _ => none
        | _ => none
      else none
    match cityMatch with
    | some m => some m
    | none =>
      if ciPrefix (S "usa") s then some (s.take 3)
      else if ciPrefix (S "canada") s then some (s.take 6)
      else if ciPrefix (S "uk") s then some (s.take 2)
      else if ciPrefix (S "europe") s then some (s.take 6)
      else none

def locSearchAux : Nat → PyStr → Option PyStr
  | 0, _ => none
  | _, [] => none
  | fuel + 1, s =>
    match matchLocAt s, s with
    | some m, _ => some m
    | none, _ :: t => locSearchAux fuel t
    | none, [] => none

/-- re.search of the location pattern over the description. -/
def locSearch (s : PyStr) : Option PyStr := locSearchAux s.length s

/-- The meta() helper of _og_meta: first requested tag that exists and
has truthy content, stripped.  `net.soupMeta` models the bs4 lookup
(find a meta tag by property or name and read its content). -/
def metaLookup (net : Net) (html : PyStr) : List PyStr → PyStr
  | [] => []
  | n :: rest =>
    match net.soupMeta html n with
    | some c => if c ≠ [] then pyStrip c else metaLookup net html rest
    | none => metaLookup net html rest

/-- adapters._og_meta: OpenGraph/Twitter title (falling back to the
document title), a site name, and a location guess regex-matched in
the description.  bs4 parses arbitrary input without raising, so the
soup lookups are total environment queries. -/
def og_meta (net : Net) (html : PyStr) : PyStr × PyStr × PyStr :=
  let title0 := metaLookup net html [S "og:title", S "twitter:title"]
  let title :=
    if title0 = [] then
      match net.soupTitle html with
      | some s => if s ≠ [] then pyStrip s else []
      | none => []
    else title0
  let desc := pyOrS (metaLookup net html [S "og:description", S "twitter:description"]) []
  let site := pyOrS (metaLookup net html [S "og:site_name"]) []
  let loc := (locSearch desc).getD []
  (pyOrS title [], loc, site)

/-- The shared tail of enrich_from_url's try-block (workday / simplify
/ oracle / generic, and the html fallback of smartrecruiters):
_get_html then _og_meta. -/
def enrichGeneric (net : Net) (url : PyStr) : Except Unit (J × J) := do
  let html ← net.getHtml url
  let og := og_meta net html
  pure (J.js og.1, J.js og.2.1)

/-- The per-job hit of the ashby loop: title plus a location read from
a dict's name, a plain string, or empty. -/
def ashbyHit (job : J) : Except Unit (Option (J × J)) := do
  let t ← jGet job (S "title")
  let title := jOr t (J.js [])
  let locv ← jGet job (S "location")
  if jIsObj locv then
    let n ← jGet locv (S "name")
    pure (some (title, jOr n (J.js [])))
  else if jIsStr locv then
    pure (some (title, locv))
  else
    pure (some (title, J.js []))

/-- The ashby search loop: match by slug, or (when the slug is
nonempty) by its occurrence in the job's URL; `or` short-circuits, so
the jobUrl access only happens when the slug test failed. -/
def ashbyScan (slug : PyStr) : List J → Except Unit (Option (J × J))
  | [] => pure none
  | job :: rest => do
    let s1 ← jLowerStr (← jGetD job (S "slug") (J.js []))
    if s1 = slug then ashbyHit job
    else if slug ≠ [] then
      let u1 ← jLowerStr (← jGetD job (S "jobUrl") (J.js []))
      if pyContains u1 slug then ashbyHit job else ashbyScan slug rest
    else ashbyScan slug rest

/-- The per-offer hit of the recruitee loop: title plus city/country
joined from the first listed location. -/
def recruiteeHit (o : J) : Except Unit (Option (J × J)) := do
  let t ← jGet o (S "title")
  let title := jOr t (J.js [])
  let locsv ← jGet o (S "locations")
  let locs := jOr locsv (J.ja [])
  if jTruthy locs then
    let l0 ← jIndex0 locs
    let b1 ← jGetD l0 (S "city") (J.js [])
    let b2 ← jGetD l0 (S "country") (J.js [])
    let sloc ← joinTruthyStrs [b1, b2]
    pure (some (title, J.js sloc))
  else pure (some (title, J.js []))

/-- The recruitee search loop (slug, or slug inside careers_url). -/
def recruiteeScan (slug : PyStr) : List J → Except Unit (Option (J × J))
  | [] => pure none
  | o :: rest => do
    let s1 ← jLowerStr (← jGetD o (S "slug") (J.js []))
    if s1 = slug then recruiteeHit o
    else if slug ≠ [] then
      let u1 ← jLowerStr (← jGetD o (S "careers_url") (J.js []))
      if pyContains u1 slug then recruiteeHit o else recruiteeScan slug rest
    else recruiteeScan slug rest

/-- The try-block of adapters.enrich_from_url: vendor-specific lookups
falling through to the generic OpenGraph scrape. -/
def enrichTry (net : Net) (url : PyStr) (info : DetectInfo) : Except Unit (J × J) := do
  let prov := info.provider
  if prov = S "lever" ∧ optTruthy info.company ∧ optTruthy info.job then
    let j ← net.getJson (S "https://api.lever.co/v0/postings/" ++ info.company.getD [] ++
      S "/" ++ info.job.getD [] ++ S "?mode=json")
    let t1 ← jGet j (S "text")
    let t2 ← jGet j (S "title")
    let title := jOr t1 (jOr t2 (J.js []))
    let cats ← jGet j (S "categories")
    let locv ← jGetD (jOr cats (J.jo [])) (S "location") J.null
    pure (title, jOr locv (J.js []))
  else if prov = S "greenhouse" ∧ optTruthy info.company ∧ optTruthy info.id then
    let j ← net.getJson (S "https://boards-api.greenhouse.io/v1/boards/" ++
      info.company.getD [] ++ S "/jobs/" ++ info.id.getD [] ++ S "?content=true")
    let t ← jGet j (S "title")
    let title := jOr t (J.js [])
    let locv ← jGet j (S "location")
    if jIsObj locv then
      let n ← jGet locv (S "name")
      pure (title, jOr n (J.js []))
    else
      let locsv ← jGet j (S "locations")
      if jIsArr locsv ∧ jTruthy locsv then
        let sloc ← joinTruthyStrs ((jArrElems locsv).map id)
        pure (title, J.js sloc)
      else
        pure (title, J.js [])
  else if prov = S "ashby" ∧ optTruthy info.company then
    let board ← net.getJson (S "https://api.ashbyhq.com/posting-api/job-board/" ++
      info.company.getD [])
    let a ← jGet board (S "jobs")
    let b ← jGet board (S "jobPostings")
    let jobsJ := jOr a (jOr b (J.ja []))
    let jobs ← jIter jobsJ
    let slug := pyLower (info.slug.getD [])
    match ← ashbyScan slug jobs with
    | some d => pure d
    | none =>
      if jTruthy jobsJ then
        let j0 ← jIndex0 jobsJ
        let t ← jGetD j0 (S "title") (J.js [])
        pure (t, J.js [])
      else enrichGeneric net url
  else if prov = S "smartrecruiters" ∧ optTruthy info.company then
    if optTruthy info.id then
      let j ← net.getJson (S "https://api.smartrecruiters.com/v1/companies/" ++
        info.company.getD [] ++ S "/postings/" ++ info.id.getD [])
      let n ← jGet j (S "name")
      let title := jOr n (J.js [])
      let locv ← jGet j (S "location")
      if jIsObj locv then
        let c1 ← jGetD locv (S "city") (J.js [])
        let c2 ← jGetD locv (S "region") (J.js [])
        let c3 ← jGetD locv (S "country") (J.js [])
        let sloc ← joinTruthyStrs [c1, c2, c3]
        pure (title, J.js sloc)
      else pure (title, J.js [])
    else enrichGeneric net url
  else if prov = S "recruitee" ∧ optTruthy info.company then
    let board ← net.getJson (S "https://" ++ info.company.getD [] ++
      S ".recruitee.com/api/offers/")
    let offersJ ← jGetD board (S "offers") (J.ja [])
    let offers ← jIter offersJ
    let slug := pyLower (info.slug.getD [])
    match ← recruiteeScan slug offers with
    | some d => pure d
    | none =>
      if jTruthy offersJ then
        let o0 ← jIndex0 offersJ
        let t ← jGetD o0 (S "title") (J.js [])
        pure (t, J.js [])
      else enrichGeneric net url
  else if prov = S "bamboohr" ∧ optTruthy info.company then
    let j ← net.getJson (S "https://" ++ info.company.getD [] ++ S ".bamboohr.com/careers/list")
    let r1 ← jGetD j (S "result") (J.jo [])
    let jobsJ ← jGetD r1 (S "jobs") (J.ja [])
    if jTruthy jobsJ then
      let j0 ← jIndex0 jobsJ
      let n1 ← jGetD j0 (S "jobOpeningName") (J.js [])
      let n2 ← jGetD j0 (S "jobTitle") (J.js [])
      let title := jOr n1 (jOr n2 (J.js []))
      let lv ← jGetD j0 (S "location") (J.js [])
      pure (title, jOr lv (J.js []))
    else enrichGeneric net url
  else enrichGeneric net url

/-- adapters.enrich_from_url.  detect(url) runs before the try/except,
so the ValueError urlparse raises on a malformed authority propagates;
every failure inside the try resolves to a pair of empty strings. -/
def enrich_from_url (net : Net) (url : PyStr) : Except PyStr (J × J) :=
  match detect url with
  | .error e => .error e
  | .ok info =>
    match enrichTry net url info with
    | .ok d => .ok d
    | .error _ => .ok (J.js [], J.js [])

/- ------------------------------------------------------------------ -/
/- Concrete fixtures used by witness and counterexample theorems.      -/
/- ------------------------------------------------------------------ -/

def exUrl : PyStr := S "https://jobs.lever.co/acme/abc123"

def exEnv : ScanEnv :=
  { fetchReadme := fun _ => S "[x](https://jobs.lever.co/acme/abc123)"
    detailsFor := fun _ => {}
    now := S "2026-01-01T00:00:00Z" }

def exSources : List Source := [{ repo := S "SimplifyJobs/Summer2026-Internships" }]

def exCand : Cand := ⟨S "SimplifyJobs/Summer2026-Internships", [], exUrl⟩

def c7Url : PyStr := S "https://example.com/careers?ats=greenhouse.io"

def c7Line : PyStr := S "[X](https://example.com/careers?ats=greenhouse.io)"

def c8Heading : PyStr := S "## Software Engineering Internship Roles"

def c8BadHeading : PyStr := S "## Community News"

def c8Line : PyStr := S "[Acme](https://jobs.lever.co/acme/abc123)"

theorem toNat_ofNat_valid (n : Nat) (h : n < 55296) : (Char.ofNat n).toNat = n := by
  unfold Char.ofNat
  rw [dif_pos (Or.inl h)]
  rfl

theorem pyIsSpace_lowerChar (c : Char) : pyIsSpace (lowerChar c) = pyIsSpace c := by
  unfold lowerChar
  split
  · rename_i h
    have ht : (Char.ofNat (c.toNat + 32)).toNat = c.toNat + 32 :=
      toNat_ofNat_valid _ (by omega)
    have hL : pyIsSpace (Char.ofNat (c.toNat + 32)) = false := by
      simp only [pyIsSpace, ht, Bool.or_eq_false_iff, decide_eq_false_iff_not]
      omega
    have hR : pyIsSpace c = false := by
      simp only [pyIsSpace, Bool.or_eq_false_iff, decide_eq_false_iff_not]
      omega
    rw [hL, hR]
  · rfl

theorem pyIsSpace_comp_lowerChar : pyIsSpace ∘ lowerChar = pyIsSpace :=
  funext pyIsSpace_lowerChar

theorem pyLStrip_pyLower (s : PyStr) : pyLStrip (pyLower s) = pyLower (pyLStrip s) := by
  unfold pyLStrip pyLower
  rw [List.dropWhile_map, pyIsSpace_comp_lowerChar]

theorem pyRStrip_pyLower (s : PyStr) : pyRStrip (pyLower s) = pyLower (pyRStrip s) := by
  unfold pyRStrip pyLower
  rw [← List.map_reverse, List.dropWhile_map, pyIsSpace_comp_lowerChar, ← List.map_reverse]

/-- str.lower and str.strip commute (ASCII case mapping never touches
whitespace). -/
theorem pyStrip_pyLower (s : PyStr) : pyStrip (pyLower s) = pyLower (pyStrip s) := by
  unfold pyStrip
  rw [pyRStrip_pyLower, pyLStrip_pyLower]

/- ---------------- C6: candidate deduplication ---------------------- -/

theorem dedupRowsAux_sublist (rows : List Row) (seen : List (PyStr × PyStr)) :
    List.Sublist (dedupRowsAux rows seen) rows := by
  induction rows generalizing seen with
  | nil => simp [dedupRowsAux]
  | cons r rest ih =>
    simp only [dedupRowsAux]
    split
    · exact (ih seen).cons r
    · exact (ih _).cons₂ r

theorem dedupRowsAux_fresh (rows : List Row) (seen : List (PyStr × PyStr)) :
    ∀ q ∈ dedupRowsAux rows seen, seen.any (fun k => decide (k = dedupKey q)) = false := by
  induction rows generalizing seen with
  | nil => simp [dedupRowsAux]
  | cons x rest ih =>
    intro q hq
    simp only [dedupRowsAux] at hq
    split at hq
    · exact ih seen q hq
    · rcases List.mem_cons.mp hq with rfl | hq'
      · rename_i h
        exact Bool.eq_false_iff.mpr h
      · have h2 := ih (dedupKey x :: seen) q hq'
        simp only [List.any_cons, Bool.or_eq_false_iff] at h2
        exact h2.2

theorem dedupRowsAux_pairwise (rows : List Row) (seen : List (PyStr × PyStr)) :
    (dedupRowsAux rows seen).Pairwise (fun a b => dedupKey a ≠ dedupKey b) := by
  induction rows generalizing seen with
  | nil => simp [dedupRowsAux]
  | cons x rest ih =>
    simp only [dedupRowsAux]
    split
    · exact ih seen
    · refine List.Pairwise.cons ?_ (ih _)
      intro b hb
      have hfresh := dedupRowsAux_fresh rest (dedupKey x :: seen) b hb
      simp only [List.any_cons, Bool.or_eq_false_iff, decide_eq_false_iff_not] at hfresh
      exact hfresh.1

theorem dedupRowsAux_covers (rows : List Row) (seen : List (PyStr × PyStr)) :
    ∀ r ∈ rows, seen.any (fun k => decide (k = dedupKey r)) = true ∨
      ∃ q ∈ dedupRowsAux rows seen, dedupKey q = dedupKey r := by
  induction rows generalizing seen with
  | nil => simp
  | cons x rest ih =>
    intro r hr
    simp only [dedupRowsAux]
    rcases List.mem_cons.mp hr with rfl | hr'
    · by_cases hx : seen.any (fun k => decide (k = dedupKey r)) = true
      · exact Or.inl hx
      · rw [if_neg hx]
        exact Or.inr ⟨r, List.mem_cons_self r _, rfl⟩
    · by_cases hx : seen.any (fun k => decide (k = dedupKey x)) = true
      · rw [if_pos hx]
        exact ih seen r hr'
      · rw [if_neg hx]
        rcases ih (dedupKey x :: seen) r hr' with h | ⟨q, hq, hkq⟩
        · simp only [List.any_cons] at h
          rcases Bool.or_eq_true_iff.mp h with h1 | h2
          · exact Or.inr ⟨x, List.mem_cons_self x _, of_decide_eq_true h1⟩
          · exact Or.inl h2
        · exact Or.inr ⟨q, List.mem_cons_of_mem x hq, hkq⟩

theorem dedupRowsAux_first (rows : List Row) (seen : List (PyStr × PyStr)) :
    ∀ q ∈ dedupRowsAux rows seen,
      rows.find? (fun x => decide (dedupKey x = dedupKey q)) = some q := by
  induction rows generalizing seen with
  | nil => simp [dedupRowsAux]
  | cons x rest ih =>
    intro q hq
    simp only [dedupRowsAux] at hq
    split at hq
    · rename_i h
      have hfq := dedupRowsAux_fresh rest seen q hq
      have hne : ¬ (decide (dedupKey x = dedupKey q) = true) := by
        intro he
        have hkx : dedupKey x = dedupKey q := of_decide_eq_true he
        rw [List.any_eq_true] at h
        rcases h with ⟨k, hk, hdk⟩
        have : seen.any (fun k => decide (k = dedupKey q)) = true := by
          rw [List.any_eq_true]
          exact ⟨k, hk, by rw [of_decide_eq_true hdk, hkx]; simp⟩
        rw [this] at hfq
        simp at hfq
      rw [@List.find?_cons_of_neg Row (fun y => decide (dedupKey y = dedupKey q)) x rest hne]
      exact ih seen q hq
    · rcases List.mem_cons.mp hq with rfl | hq'
      · exact List.find?_cons_of_pos _ (by simp)
      · have hfq := dedupRowsAux_fresh rest (dedupKey x :: seen) q hq'
        simp only [List.any_cons, Bool.or_eq_false_iff, decide_eq_false_iff_not] at hfq
        have hne : ¬ (decide (dedupKey x = dedupKey q) = true) := by
          simpa using hfq.1
        rw [@List.find?_cons_of_neg Row (fun y => decide (dedupKey y = dedupKey q)) x rest hne]
        exact ih _ q hq'

/-- Claim C6: deduplication of candidate rows uses the key
(company.lower().strip(), url.strip()) — written strip-then-lower in
the code, which the last conjunct shows is the same function; any two
rows sharing the key collapse to one (pairwise-distinct keys in the
output), every input key is represented, the retained row is the first
occurrence of its key, and relative input order is preserved (the
output is a sublist of the input). -/
theorem dedup_by_company_url_first_occurrence (rows : List Row) :
    List.Sublist (dedupRows rows) rows ∧
    (dedupRows rows).Pairwise (fun a b => dedupKey a ≠ dedupKey b) ∧
    (∀ r ∈ rows, ∃ q ∈ dedupRows rows, dedupKey q = dedupKey r) ∧
    (∀ q ∈ dedupRows rows, rows.find? (fun x => decide (dedupKey x = dedupKey q)) = some q) ∧
    (∀ r : Row, dedupKey r = (pyStrip (pyLower r.company), pyStrip r.url)) := by
  refine ⟨dedupRowsAux_sublist rows [], dedupRowsAux_pairwise rows [], ?_,
    dedupRowsAux_first rows [], ?_⟩
  · intro r hr
    rcases dedupRowsAux_covers rows [] r hr with h | h
    · simp at h
    · exact h
  · intro r
    unfold dedupKey
    rw [pyStrip_pyLower]

/-- Witness for C6 at a concrete row list: the retained representative
of the duplicated key is the first occurrence. -/
theorem dedup_by_company_url_witness :
    [(⟨S "Acme ", S "https://x"⟩ : Row), ⟨S "acme", S "https://x "⟩,
      ⟨S "Beta", S "https://y"⟩].find?
      (fun x => decide (dedupKey x = dedupKey ⟨S "Acme ", S "https://x"⟩)) =
      some ⟨S "Acme ", S "https://x"⟩ := by
  have h := dedup_by_company_url_first_occurrence
    [⟨S "Acme ", S "https://x"⟩, ⟨S "acme", S "https://x "⟩, ⟨S "Beta", S "https://y"⟩]
  exact h.2.2.2.1 ⟨S "Acme ", S "https://x"⟩ (by decide)

/- ---------------- C5: details cache upsert ------------------------- -/

theorem filtered_find?_none (url : PyStr) (l : List CacheRow) :
    (l.filter (fun r => !decide (r.url = url))).find? (fun r => decide (r.url = url)) = none := by
  rw [List.find?_eq_none]
  intro x hx
  have hp := List.of_mem_filter hx
  simp at hp ⊢
  exact hp

theorem filtered_countP_zero (url : PyStr) (l : List CacheRow) :
    (l.filter (fun r => !decide (r.url = url))).countP (fun r => decide (r.url = url)) = 0 := by
  rw [List.countP_eq_zero]
  intro x hx
  have hp := List.of_mem_filter hx
  simp at hp ⊢
  exact hp

theorem pyOrS_pyOrS (a : PyStr) : pyOrS (pyOrS a []) [] = pyOrS a [] := by
  by_cases h : a = [] <;> simp [pyOrS, h]

/-- Claim C5: the details cache is last-write-wins with one row per
key — after put(url,"A","B") then put(url,"C","D"), get(url) returns
title "C" and location "D" (and the provider last written), and the
table holds exactly one row for that url. -/
theorem cache_upsert_last_write_wins (tbl : List CacheRow) (url pa pb n1 n2 : PyStr) :
    cacheGet url (cachePut n2 url (S "C") (S "D") pb (cachePut n1 url (S "A") (S "B") pa tbl)) =
      some (S "C", S "D", pyOrS pb []) ∧
    (cachePut n2 url (S "C") (S "D") pb (cachePut n1 url (S "A") (S "B") pa tbl)).countP
      (fun r => decide (r.url = url)) = 1 := by
  have hC : pyOrS (S "C") [] = S "C" := by decide
  have hD : pyOrS (S "D") [] = S "D" := by decide
  constructor
  · unfold cacheGet cachePut
    rw [List.filter_append, List.find?_append, List.find?_append,
      filtered_find?_none, filtered_find?_none]
    simp [List.find?_cons, hC, hD, pyOrS_pyOrS]
  · unfold cachePut
    rw [List.filter_append, List.countP_append, List.countP_append,
      filtered_countP_zero, filtered_countP_zero]
    simp [List.countP_cons]

/-- Witness for C5 at concrete arguments. -/
theorem cache_upsert_witness :
    cacheGet (S "u") (cachePut (S "t2") (S "u") (S "C") (S "D") (S "p2")
      (cachePut (S "t1") (S "u") (S "A") (S "B") (S "p1") [])) =
      some (S "C", S "D", pyOrS (S "p2") []) :=
  (cache_upsert_last_write_wins [] (S "u") (S "p1") (S "p2") (S "t1") (S "t2")).1

/- ---------------- C1: DIFF-stage idempotence ----------------------- -/

theorem watchOnceDiff_mono (seed : Bool) (rows : List Row) (l : List SeenRow) (k : PyStr) :
    l.any (fun s => decide (s.id = k)) = true →
    (watchOnceDiff seed rows l).1.any (fun s => decide (s.id = k)) = true := by
  induction rows generalizing l with
  | nil => intro h; simpa [watchOnceDiff] using h
  | cons r rest ih =>
    intro h
    simp only [watchOnceDiff]
    split
    · exact ih l h
    · have h' : (l ++ [(⟨row_id r, r.company, r.url⟩ : SeenRow)]).any
          (fun s => decide (s.id = k)) = true := by
        rw [List.any_append, h, Bool.true_or]
      have := ih _ h'
      split <;> simpa using this

theorem watchOnceDiff_records (seed : Bool) (rows : List Row) (l : List SeenRow) :
    ∀ r ∈ rows, (watchOnceDiff seed rows l).1.any
      (fun s => decide (s.id = row_id r)) = true := by
  induction rows generalizing l with
  | nil => simp
  | cons x rest ih =>
    intro r hr
    rcases List.mem_cons.mp hr with rfl | hr'
    · simp only [watchOnceDiff]
      split
      · rename_i h
        exact watchOnceDiff_mono seed rest l _ h
      · have h' : (l ++ [(⟨row_id r, r.company, r.url⟩ : SeenRow)]).any
            (fun s => decide (s.id = row_id r)) = true := by
          rw [List.any_append]
          simp
        have := watchOnceDiff_mono seed rest _ _ h'
        split <;> simpa using this
    · simp only [watchOnceDiff]
      split
      · exact ih l r hr'
      · have := ih (l ++ [⟨row_id x, x.company, x.url⟩]) r hr'
        split <;> simpa using this

theorem watchOnceDiff_no_new_when_seen (seed : Bool) (rows : List Row) (l : List SeenRow) :
    (∀ r ∈ rows, l.any (fun s => decide (s.id = row_id r)) = true) →
    (watchOnceDiff seed rows l).2 = [] := by
  induction rows generalizing l with
  | nil => intro _; simp [watchOnceDiff]
  | cons x rest ih =>
    intro h
    simp only [watchOnceDiff]
    rw [if_pos (h x (List.mem_cons_self x _))]
    exact ih l (fun r hr => h r (List.mem_cons_of_mem x hr))

theorem watchOnceDiff_count_zero (rows : List Row) (l : List SeenRow) (k : PyStr) :
    l.any (fun s => decide (s.id = k)) = true →
    ((watchOnceDiff false rows l).2.countP (fun x => decide (row_id x = k))) = 0 := by
  induction rows generalizing l with
  | nil => intro _; simp [watchOnceDiff]
  | cons x rest ih =>
    intro h
    simp only [watchOnceDiff]
    split
    · exact ih l h
    · rename_i hcol
      have hxk : ¬ (row_id x = k) := by
        intro he
        rw [he] at hcol
        exact hcol h
      have h' : (l ++ [(⟨row_id x, x.company, x.url⟩ : SeenRow)]).any
          (fun s => decide (s.id = k)) = true := by
        rw [List.any_append, h, Bool.true_or]
      simp [List.countP_cons, hxk, ih _ h']

theorem watchOnceDiff_count (rows : List Row) (l : List SeenRow) (k : PyStr) :
    l.any (fun s => decide (s.id = k)) = false →
    ((watchOnceDiff false rows l).2.countP (fun x => decide (row_id x = k))) =
      (if rows.any (fun r => decide (row_id r = k)) = true then 1 else 0) := by
  induction rows generalizing l with
  | nil => intro _; simp [watchOnceDiff]
  | cons x rest ih =>
    intro h
    simp only [watchOnceDiff]
    split
    · rename_i hcol
      have hxk : ¬ (row_id x = k) := by
        intro he
        rw [he] at hcol
        rw [hcol] at h
        simp at h
      rw [ih l h]
      simp [List.any_cons, hxk]
    · rename_i hcol
      by_cases hxk : row_id x = k
      · have h' : (l ++ [(⟨row_id x, x.company, x.url⟩ : SeenRow)]).any
            (fun s => decide (s.id = k)) = true := by
          rw [List.any_append]
          simp [hxk]
        have hz := watchOnceDiff_count_zero rest _ k h'
        have hany : ((x :: rest).any fun r => decide (row_id r = k)) = true := by
          simp [List.any_cons, hxk]
        rw [hany, if_neg (by simp : ¬ (false = true))]
        rw [List.countP_cons, hz]
        simp [hxk]
      · have h' : (l ++ [(⟨row_id x, x.company, x.url⟩ : SeenRow)]).any
            (fun s => decide (s.id = k)) = false := by
          rw [List.any_append, h]
          simp [hxk]
        simp [List.countP_cons, hxk, ih _ h', List.any_cons]

/-- Claim C1: the DIFF stage is idempotent over the persistent ledger —
re-running the insert/collect loop of 03_watch_once over the same
candidate set makes every insert hit a primary-key collision (swallowed
by the loop, never raised) so the second new-set is empty, and a
candidate whose key was fresh is marked new exactly once across the two
runs. -/
theorem diff_stage_idempotent (rows : List Row) (l0 : List SeenRow) :
    (watchOnceDiff false rows (watchOnceDiff false rows l0).1).2 = [] ∧
    (∀ r ∈ rows, l0.any (fun s => decide (s.id = row_id r)) = false →
      ((watchOnceDiff false rows l0).2 ++
        (watchOnceDiff false rows (watchOnceDiff false rows l0).1).2).countP
        (fun x => decide (row_id x = row_id r)) = 1) := by
  have hsecond : (watchOnceDiff false rows (watchOnceDiff false rows l0).1).2 = [] :=
    watchOnceDiff_no_new_when_seen false rows _
      (fun r hr => watchOnceDiff_records false rows l0 r hr)
  refine ⟨hsecond, ?_⟩
  intro r hr hfresh
  rw [hsecond, List.append_nil, watchOnceDiff_count rows l0 (row_id r) hfresh]
  have hany : (rows.any fun x => decide (row_id x = row_id r)) = true :=
    List.any_eq_true.mpr ⟨r, hr, by simp⟩
  rw [hany, if_pos rfl]

/-- Witness for C1 at a concrete candidate and an empty ledger. -/
theorem diff_stage_idempotent_witness :
    (watchOnceDiff false [(⟨S "acme", exUrl⟩ : Row)]
      (watchOnceDiff false [(⟨S "acme", exUrl⟩ : Row)] []).1).2 = [] ∧
    ((watchOnceDiff false [(⟨S "acme", exUrl⟩ : Row)] []).2 ++
      (watchOnceDiff false [(⟨S "acme", exUrl⟩ : Row)]
        (watchOnceDiff false [(⟨S "acme", exUrl⟩ : Row)] []).1).2).countP
      (fun x => decide (row_id x = row_id ⟨S "acme", exUrl⟩)) = 1 := by
  have h := diff_stage_idempotent [(⟨S "acme", exUrl⟩ : Row)] []
  exact ⟨h.1, h.2 ⟨S "acme", exUrl⟩ (List.mem_cons_self _ _) (by simp)⟩

/- ---------------- C4: seed-mode silence ---------------------------- -/

theorem wcInsertLoop_seed_no_new (now : PyStr) (cs : List Cand) (l : List WcRow) :
    (wcInsertLoop now true cs l).2 = [] := by
  induction cs generalizing l with
  | nil => simp [wcInsertLoop]
  | cons c rest ih =>
    simp only [wcInsertLoop]
    split
    · exact ih l
    · simpa using ih _

theorem wcInsertLoop_mono (now : PyStr) (seed : Bool) (cs : List Cand) (l : List WcRow)
    (k : PyStr) :
    l.any (fun r => decide (r.id = k)) = true →
    (wcInsertLoop now seed cs l).1.any (fun r => decide (r.id = k)) = true := by
  induction cs generalizing l with
  | nil => intro h; simpa [wcInsertLoop] using h
  | cons c rest ih =>
    intro h
    simp only [wcInsertLoop]
    split
    · exact ih l h
    · have h' : (l ++ [(⟨sha1Hex c.url, pyOrS c.company [], c.url, now⟩ : WcRow)]).any
          (fun r => decide (r.id = k)) = true := by
        rw [List.any_append, h, Bool.true_or]
      have := ih _ h'
      split <;> simpa using this

theorem wcInsertLoop_inv (now : PyStr) (seed : Bool) (cs : List Cand)
    (l l0 : List WcRow)
    (hP : ∀ s ∈ l, s ∈ l0 ∨ s.id = sha1Hex s.url) :
    ∀ s ∈ (wcInsertLoop now seed cs l).1, s ∈ l0 ∨ s.id = sha1Hex s.url := by
  induction cs generalizing l with
  | nil => intro s hs; exact hP s hs
  | cons c rest ih =>
    intro s hs
    simp only [wcInsertLoop] at hs
    split at hs
    · exact ih l hP s hs
    · have hP' : ∀ s ∈ (l ++ [(⟨sha1Hex c.url, pyOrS c.company [], c.url, now⟩ : WcRow)]),
          s ∈ l0 ∨ s.id = sha1Hex s.url := by
        intro t ht
        rcases List.mem_append.mp ht with h1 | h2
        · exact hP t h1
        · simp only [List.mem_singleton] at h2
          subst h2
          exact Or.inr rfl
      have := ih _ hP'
      revert hs
      split <;> exact fun hs => this s hs

theorem wcInsertLoop_records (now : PyStr) (seed : Bool) (cs : List Cand)
    (l l0 : List WcRow)
    (hP : ∀ s ∈ l, s ∈ l0 ∨ s.id = sha1Hex s.url) :
    ∀ c ∈ cs, (∀ s ∈ l0, s.url ≠ c.url) →
      (wcInsertLoop now seed cs l).1.any (fun r => decide (r.id = sha1Hex c.url)) = true := by
  induction cs generalizing l with
  | nil => simp
  | cons c0 rest ih =>
    intro c hc hfresh
    rcases List.mem_cons.mp hc with rfl | hc'
    · simp only [wcInsertLoop]
      split
      · rename_i hcol
        rw [List.any_eq_true] at hcol
        rcases hcol with ⟨s, hs, hsp⟩
        rcases Bool.or_eq_true_iff.mp hsp with h1 | h2
        · exact wcInsertLoop_mono now seed rest l _
            (List.any_eq_true.mpr ⟨s, hs, h1⟩)
        · have hsurl : s.url = c.url := of_decide_eq_true h2
          rcases hP s hs with hmem | hid
          · exact absurd hsurl (hfresh s hmem)
          · refine wcInsertLoop_mono now seed rest l _
              (List.any_eq_true.mpr ⟨s, hs, ?_⟩)
            rw [hid, hsurl]
            simp
      · have h' : (l ++ [(⟨sha1Hex c.url, pyOrS c.company [], c.url, now⟩ : WcRow)]).any
            (fun r => decide (r.id = sha1Hex c.url)) = true := by
          rw [List.any_append]
          simp
        have := wcInsertLoop_mono now seed rest _ _ h'
        split <;> simpa using this
    · simp only [wcInsertLoop]
      split
      · exact ih l hP c hc' hfresh
      · have hP' : ∀ s ∈ (l ++ [(⟨sha1Hex c0.url, pyOrS c0.company [], c0.url, now⟩ : WcRow)]),
            s ∈ l0 ∨ s.id = sha1Hex s.url := by
          intro t ht
          rcases List.mem_append.mp ht with h1 | h2
          · exact hP t h1
          · simp only [List.mem_singleton] at h2
            subst h2
            exact Or.inr rfl
        have := ih _ hP' c hc' hfresh
        split <;> simpa using this

/-- Claim C4: a seed-mode run of watch_core.run_scan emits no events at
all (no desktop or push notification, no caught-up notification, no
enrichment call), collects no new items, and records every candidate
whose URL was not already in the ledger under its sha1(url) key. -/
theorem seed_mode_silence (env : ScanEnv) (sources : List Source) (F : Filters)
    (nwz : Bool) (zp : PyStr) (l0 : List WcRow) :
    (run_scan env sources F true nwz zp l0).events = [] ∧
    (run_scan env sources F true nwz zp l0).newItems = [] ∧
    (run_scan env sources F true nwz zp l0).kept = 0 ∧
    (run_scan env sources F true nwz zp l0).enriched = [] ∧
    (∀ c ∈ scanCandidates env sources, (∀ s ∈ l0, s.url ≠ c.url) →
      (run_scan env sources F true nwz zp l0).ledger.any
        (fun r => decide (r.id = sha1Hex c.url)) = true) := by
  have hnew := wcInsertLoop_seed_no_new env.now (scanCandidates env sources) l0
  refine ⟨?_, ?_, ?_, ?_, ?_⟩
  · simp [run_scan, hnew, notifyLoop]
  · simp [run_scan, hnew]
  · simp [run_scan, hnew, notifyLoop]
  · simp [run_scan, hnew, notifyLoop]
  · intro c hc hfresh
    simp only [run_scan]
    exact wcInsertLoop_records env.now true (scanCandidates env sources) l0 l0
      (fun s hs => Or.inl hs) c hc hfresh

/-- Witness for C4: a concrete seed run over one fresh lever candidate. -/
theorem seed_mode_silence_witness :
    (run_scan exEnv exSources defaultFilters true true [] []).events = [] ∧
    (run_scan exEnv exSources defaultFilters true true [] []).ledger.any
      (fun r => decide (r.id = sha1Hex exUrl)) = true := by
  have h := seed_mode_silence exEnv exSources defaultFilters true [] []
  exact ⟨h.1, h.2.2.2.2 exCand (by decide) (by simp)⟩

/- ---------------- C10: default filters pass everything ------------- -/

theorem passes_filters_default (company : PyStr) (det : Det) :
    passes_filters company det defaultFilters = true := by
  simp [passes_filters, defaultFilters]

theorem passes_filters_wo_default (r : Row) (det : Det) :
    passes_filters_wo r det defaultFilters = true := by
  simp [passes_filters_wo, defaultFilters]

theorem notifyLoop_default (env : ScanEnv) (items : List Item) :
    (notifyLoop env defaultFilters items).2.2 = items.length ∧
    (notifyLoop env defaultFilters items).1.length = 3 * items.length := by
  induction items with
  | nil => simp [notifyLoop]
  | cons it rest ih =>
    simp only [notifyLoop, passes_filters_default, Bool.not_true]
    constructor
    · simp [ih.1]
    · simp [ih.2]
      omega

/-- Claim C10: with the default (all-empty) filter configuration both
filter predicates accept every (company, detail) pair, so a non-seed
run keeps every new item (kept = number of new items) and, with the
caught-up notification disabled, emits exactly the three per-item
events (enrichment query, desktop notification, push notification) and
nothing else. -/
theorem default_filters_pass_through (env : ScanEnv) (sources : List Source)
    (zp : PyStr) (l0 : List WcRow) :
    (∀ company det, passes_filters company det defaultFilters = true) ∧
    (∀ r det, passes_filters_wo r det defaultFilters = true) ∧
    (run_scan env sources defaultFilters false false zp l0).kept =
      (run_scan env sources defaultFilters false false zp l0).newItems.length ∧
    (run_scan env sources defaultFilters false false zp l0).events.length =
      3 * (run_scan env sources defaultFilters false false zp l0).newItems.length := by
  refine ⟨passes_filters_default, passes_filters_wo_default, ?_, ?_⟩
  · simp only [run_scan]
    simp [(notifyLoop_default env _).1]
  · simp only [run_scan]
    simp [(notifyLoop_default env _).2]

/- ---------------- C3 / C9: enrichment and classifier --------------- -/

/-- Claim C3 (code bug): enrich_from_url calls detect before its
try/except, and urlparse raises ValueError("Invalid IPv6 URL") on the
malformed URL "http://[", so the exception propagates out of
enrich_from_url — contradicting the function's own docstring ("Never
raises; on failure returns empty strings") — for any state of the
network. -/
theorem enrich_raises_on_malformed_url (net : Net) :
    enrich_from_url net (S "http://[") = .error (S "Invalid IPv6 URL") := rfl

theorem selectAppUrlAux_none (l : List (PyStr × PyStr))
    (h : ∀ p ∈ l, isAts03 p.2 = false) : selectAppUrlAux l = [] := by
  induction l with
  | nil => rfl
  | cons q rest ih =>
    simp only [selectAppUrlAux]
    rw [if_neg (by simp [h q (List.mem_cons_self q rest)])]
    exact ih (fun p hp => h p (List.mem_cons_of_mem q hp))

theorem selectAppUrlAux_find (l : List (PyStr × PyStr)) (p : PyStr × PyStr)
    (h : l.find? (fun q => isAts03 q.2) = some p) : selectAppUrlAux l = pyStrip p.2 := by
  induction l with
  | nil => simp at h
  | cons q rest ih =>
    by_cases hq : isAts03 q.2 = true
    · rw [List.find?_cons_of_pos rest hq] at h
      injection h with h
      simp only [selectAppUrlAux]
      rw [if_pos hq, h]
    · rw [List.find?_cons_of_neg rest (by simp [hq])] at h
      simp only [selectAppUrlAux]
      rw [if_neg (by simp [hq])]
      exact ih h

/-- Counterexample to claim C7: apply-URL selection tests each ATS
domain as a substring of the whole lowercased URL, not of its host —
this line's only link has host example.com, which matches no ATS
domain, yet the line contributes a candidate because the query string
contains "greenhouse.io". -/
theorem apply_url_host_counterexample :
    lineRow c7Line = .ok (some ⟨S "X", c7Url⟩) ∧
    hostOfUrl c7Url = S "example.com" ∧
    ATS_DOMAINS_PT.all (fun d => !pyContains (S "example.com") d) = true :=
  ⟨rfl, rfl, by decide⟩

/-- Claim C7 amended: for every line, the chosen apply URL is the last
extracted link (first in reverse scan order) whose lowercased URL
contains one of the fixed ATS domain strings anywhere (not merely in
its host), stripped; when no link's URL contains an ATS domain, or the
chosen URL contains "top-list", the line contributes no candidate. -/
theorem apply_url_selection_amended :
    (∀ links : List (PyStr × PyStr), (∀ p ∈ links, isAts03 p.2 = false) →
      selectAppUrl links = []) ∧
    (∀ links : List (PyStr × PyStr), ∀ p,
      links.reverse.find? (fun q => isAts03 q.2) = some p →
      selectAppUrl links = pyStrip p.2) ∧
    (∀ raw : PyStr,
      (selectAppUrl (links_in_line (normalize_images (pyRStrip raw))) = [] ∨
        pyContains (selectAppUrl (links_in_line (normalize_images (pyRStrip raw))))
          (S "top-list") = true) →
      lineRow raw = .ok none) := by
  refine ⟨?_, ?_, ?_⟩
  · intro links h
    exact selectAppUrlAux_none _ (fun p hp => h p (List.mem_reverse.mp hp))
  · intro links p h
    exact selectAppUrlAux_find _ p h
  · intro raw h
    simp only [lineRow]
    split
    · rfl
    · split
      · rfl
      · rfl

/-- Witness for the amended C7: the spec's own example line — an image
link followed by a Lever link — selects the Lever link. -/
theorem apply_url_selection_witness :
    selectAppUrl [(S "Img", S "https://cdn.example/x.png"),
      (S "Lever", S "https://jobs.lever.co/acme/123")] =
      pyStrip (S "https://jobs.lever.co/acme/123") :=
  apply_url_selection_amended.2.1
    [(S "Img", S "https://cdn.example/x.png"), (S "Lever", S "https://jobs.lever.co/acme/123")]
    (S "Lever", S "https://jobs.lever.co/acme/123") (by decide)

/- ---------------- C8: section scoping ------------------------------ -/

/-- Claim C8: in non-fallback mode a line outside any recognized
role-section heading never contributes a candidate — with no heading at
all, after a non-matching heading, and after a recognized section is
closed by a non-matching heading — while the same line directly inside
a recognized section contributes exactly what its per-line extraction
yields (headings toggle the in-section state; a non-matching heading
sets it false). -/
theorem section_scoping (h₁ h₂ L : PyStr)
    (hh₁ : startsWithHash (pyRStrip h₁) = true)
    (hn₁ : in_roles_section_title (pyRStrip h₁) = false)
    (hh₂ : startsWithHash (pyRStrip h₂) = true)
    (hp₂ : in_roles_section_title (pyRStrip h₂) = true)
    (hL : startsWithHash (pyRStrip L) = false) :
    parseJobsLines [L] false = .ok [] ∧
    parseJobsLines [h₁, L] false = .ok [] ∧
    parseJobsLines [h₂, h₁, L] false = .ok [] ∧
    parseJobsLines [h₂, L] false = (lineRow L).map (fun o => o.toList) := by
  have hskip : parseJobsLines [L] false = .ok [] := by
    simp only [parseJobsLines]
    rw [if_neg (by simp [hL]), if_pos (by simp)]
  have hone : parseJobsLines [h₁, L] false = .ok [] := by
    simp only [parseJobsLines]
    rw [if_pos hh₁, hn₁]
    exact hskip
  have hin : parseJobsLines [L] true = (lineRow L).map (fun o => o.toList) := by
    simp only [parseJobsLines]
    rw [if_neg (by simp [hL]), if_neg (by simp)]
    cases lineRow L with
    | error e => rfl
    | ok o => cases o <;> rfl
  refine ⟨hskip, hone, ?_, ?_⟩
  · simp only [parseJobsLines]
    rw [if_pos hh₂, hp₂]
    simp only [parseJobsLines]
    rw [if_pos hh₁, hn₁]
    exact hskip
  · simp only [parseJobsLines]
    rw [if_pos hh₂, hp₂]
    exact hin

/-- Witness for C8: the role-section heading admits the lever line and
a news heading (or no heading) does not. -/
theorem section_scoping_witness :
    parseJobsLines [c8Line] false = .ok [] ∧
    parseJobsLines [c8BadHeading, c8Line] false = .ok [] ∧
    parseJobsLines [c8Heading, c8Line] false =
      .ok [⟨S "Acme", S "https://jobs.lever.co/acme/abc123"⟩] := by
  have h := section_scoping c8BadHeading c8Heading c8Line (by decide) (by decide)
    (by decide) (by decide) (by decide)
  exact ⟨h.1, h.2.1, h.2.2.2.trans (by rfl)⟩

/- ---------------- C2: ledger key ----------------------------------- -/

/-- Counterexample to claim C2: the insert loop of watch_core.run_scan
keys the Seen ledger by sha1 of the URL alone (its candidates always
carry an empty company), so the primary key actually recorded differs
from sha1(company + "|" + url): here sha1(url) vs sha1("" + "|" + url). -/
theorem ledger_key_counterexample :
    (run_scan exEnv exSources defaultFilters true true [] []).ledger =
      [⟨sha1Hex exUrl, [], exUrl, exEnv.now⟩] ∧
    sha1Hex exUrl ≠ sha1Hex ([] ++ S "|" ++ exUrl) := by
  constructor
  · rfl
  · decide

/-- Claim C2 amended: the 03_watch_once pipeline records each row under
sha1(company.strip() + "|" + url.strip()) — so candidates sharing a URL
but naming different companies get distinct ledger ids, witnessed at
concrete companies — while every row watch_core.run_scan adds to the
ledger is keyed by sha1 of its URL alone. -/
theorem ledger_key_amended :
    (∀ r : Row, row_id r = sha1Hex (pyStrip r.company ++ S "|" ++ pyStrip r.url)) ∧
    row_id ⟨S "acme", exUrl⟩ ≠ row_id ⟨S "globex", exUrl⟩ ∧
    (∀ env sources F seed nwz zp (l0 : List WcRow),
      ∀ s ∈ (run_scan env sources F seed nwz zp l0).ledger,
        s ∈ l0 ∨ s.id = sha1Hex s.url) := by
  refine ⟨fun r => rfl, by decide, ?_⟩
  intro env sources F seed nwz zp l0 s hs
  simp only [run_scan] at hs
  exact wcInsertLoop_inv env.now seed (scanCandidates env sources) l0 l0
    (fun t ht => Or.inl ht) s hs

/-- Witness for the amended C2 at concrete inputs. -/
theorem ledger_key_amended_witness :
    row_id ⟨S "acme", exUrl⟩ = sha1Hex (pyStrip (S "acme") ++ S "|" ++ pyStrip exUrl) ∧
    ((⟨sha1Hex exUrl, [], exUrl, exEnv.now⟩ : WcRow) ∈ ([] : List WcRow) ∨
      (⟨sha1Hex exUrl, [], exUrl, exEnv.now⟩ : WcRow).id =
        sha1Hex (⟨sha1Hex exUrl, [], exUrl, exEnv.now⟩ : WcRow).url) := by
  constructor
  · exact ledger_key_amended.1 ⟨S "acme", exUrl⟩
  · exact ledger_key_amended.2.2 exEnv exSources defaultFilters true true [] []
      ⟨sha1Hex exUrl, [], exUrl, exEnv.now⟩ (by decide)
